import Mathlib

/-!
Verification of the Blob Packing and Cost Estimation Engine of the
zk-gas-soundness repository.

The definitions below are a shallow embedding of the algorithmic core of
`src/blob_packing_planner.py` and `src/eip4844_blob_cost.py`:

* the First-Fit-Decreasing bin packing function
  `first_fit_decreasing_binpack` (blob_packing_planner.py, lines 119-145);
* the pure cost computations of `main` in both scripts.

Modelling conventions:
* payload sizes are natural numbers (both parsers reject negative sizes,
  `parse_sizes_arg` line 90-91 and `read_sizes_file` line 107-108, and
  `main` additionally clamps with `max(0, s)` at line 192, which is the
  identity on this domain);
* Gwei fee values are rationals; the `Web3.to_wei(x, "gwei")` /
  `Web3.from_wei(w, "ether")` conversion chain multiplies by 10^9 and
  divides by 10^18, so a cost in ETH is `value_gwei * gas / 10^9`,
  computed in exact rational arithmetic;
* `gas_used` is an integer clamped with `max(0, ...)` exactly as in the
  source (`Int.toNat`);
* network I/O, timestamps and printing are external collaborators and are
  not part of the embedded core; a fee snapshot is passed in as data.
-/

/-- `BLOB_SIZE_BYTES = 131072`, blob_packing_planner.py line 32. -/
def BLOB_SIZE_BYTES : ℕ := 131072

/-- `DATA_GAS_PER_BLOB = 131072`, blob_packing_planner.py line 33 and
eip4844_blob_cost.py line 27. -/
def DATA_GAS_PER_BLOB : ℕ := 131072

/-- `CALLDATA_GAS_PER_BYTE = 16`, blob_packing_planner.py line 34. -/
def CALLDATA_GAS_PER_BYTE : ℕ := 16

/-- The comparison realised by
`sorted(range(len(sizes)), key=lambda i: sizes[i], reverse=True)`
(blob_packing_planner.py line 131).  Python `sorted` is stable and
`reverse=True` keeps ties in input order, so index `i` comes before `j`
exactly when `sizes[i] > sizes[j]`, or the sizes are equal and `i ≤ j`.
Sorting distinct indices by this total order is therefore exactly the
stable descending sort of the source. -/
def ffdLe (sizes : List ℕ) (i j : ℕ) : Prop :=
  sizes.getD j 0 < sizes.getD i 0 ∨ (sizes.getD i 0 = sizes.getD j 0 ∧ i ≤ j)

instance ffdLeDec (sizes : List ℕ) : DecidableRel (ffdLe sizes) := fun _ _ =>
  inferInstanceAs (Decidable (_ ∨ _))

instance ffdLeTotal (sizes : List ℕ) : IsTotal ℕ (ffdLe sizes) :=
  ⟨fun i j => by unfold ffdLe; omega⟩

instance ffdLeTrans (sizes : List ℕ) : IsTrans ℕ (ffdLe sizes) :=
  ⟨fun i j k hij hjk => by unfold ffdLe at hij hjk ⊢; omega⟩

/-- `order = sorted(range(len(sizes)), key=lambda i: sizes[i], reverse=True)`,
blob_packing_planner.py line 131. -/
def sortIndicesDesc (sizes : List ℕ) : List ℕ :=
  List.insertionSort (ffdLe sizes) (List.range sizes.length)

/-- One iteration of the packing loop, blob_packing_planner.py lines
134-144.  The state pairs each open bin with its remaining capacity
(the parallel Python lists `bins` and `remaining`).  The inner
`for b, rem in enumerate(remaining)` scan with `break` is the recursion:
the first bin with `sizes[i] <= rem` receives index `i` (lines 136-141);
if none fits a new bin `[i]` with remaining `bin_cap - sizes[i]` is
appended (lines 142-144).  Remaining capacities are integers, as in
Python, so an oversize payload would leave a negative remainder. -/
def placeOne (sizes : List ℕ) (bin_cap : ℕ) (i : ℕ) :
    List (List ℕ × ℤ) → List (List ℕ × ℤ)
  | [] => [([i], (bin_cap : ℤ) - (sizes.getD i 0 : ℕ))]
  | (b, rem) :: rest =>
    if (sizes.getD i 0 : ℤ) ≤ rem then
      (b ++ [i], rem - (sizes.getD i 0 : ℕ)) :: rest
    else
      (b, rem) :: placeOne sizes bin_cap i rest

/-- `first_fit_decreasing_binpack`, blob_packing_planner.py lines 119-145:
sort indices by size descending (stable), then place each index in the
first open bin with enough remaining capacity, opening a new bin when
none fits; return the list of bins (member index lists). -/
def first_fit_decreasing_binpack (sizes : List ℕ) (bin_cap : ℕ) : List (List ℕ) :=
  ((sortIndicesDesc sizes).foldl (fun st i => placeOne sizes bin_cap i st) []).map Prod.fst

/-- Sum of the sizes of a bin member index list (`sum(sizes[j] for j in bin_)`,
blob_packing_planner.py line 254). -/
def binSum (sizes : List ℕ) (b : List ℕ) : ℕ :=
  (b.map (fun j => sizes.getD j 0)).sum

/-- `exec_cost_eth`, blob_packing_planner.py lines 222-223 and
eip4844_blob_cost.py lines 131-134:
`from_wei(to_wei(base + tip, "gwei") * gas_used, "ether")`. -/
def exec_cost_eth (baseFeeGwei tipGwei : ℚ) (gasUsed : ℕ) : ℚ :=
  (baseFeeGwei + tipGwei) * (gasUsed : ℚ) / 10 ^ 9

/-- `blob_cost_eth`, blob_packing_planner.py lines 225-227 and
eip4844_blob_cost.py lines 141-143: `None` unless the blob base fee is
known and at least one blob is used, otherwise
`from_wei(to_wei(fee, "gwei") * blob_count * DATA_GAS_PER_BLOB, "ether")`. -/
def blob_cost_eth (blobBaseFeeGwei : Option ℚ) (blob_count : ℕ) : Option ℚ :=
  match blobBaseFeeGwei with
  | some f =>
    if 0 < blob_count then
      some (f * (blob_count : ℚ) * (DATA_GAS_PER_BLOB : ℚ) / 10 ^ 9)
    else none
  | none => none

/-- `calldata_cost_eth`, blob_packing_planner.py lines 229-230 and
eip4844_blob_cost.py lines 146-148:
`from_wei(to_wei(base + tip, "gwei") * total_bytes * 16, "ether")`. -/
def calldata_cost_eth (baseFeeGwei tipGwei : ℚ) (totalBytes : ℕ) : ℚ :=
  (baseFeeGwei + tipGwei) * ((totalBytes * CALLDATA_GAS_PER_BYTE : ℕ) : ℚ) / 10 ^ 9

/-- The error raised at blob_packing_planner.py lines 193-194.  The
message interpolates only the constant `BLOB_SIZE_BYTES`; it is the same
string for every failing input. -/
def oversizeError : String :=
  "Payload exceeds blob capacity (131072 bytes); split payloads before packing."

/-- The advisory note appended at blob_packing_planner.py line 271 and
eip4844_blob_cost.py line 176. -/
def blobFeeMissingNote : String :=
  "Blob base fee not available from RPC; pass --blob-base-fee-gwei to override."

/-- Inputs of `main` in blob_packing_planner.py that reach the core
computation: validated payload sizes, `--gas-used`, the fee snapshot
(base fee from the latest block, `--tip-gwei`, and the blob base fee
when the override or the RPC provides one). -/
structure PlannerInputs where
  sizes : List ℕ
  gasUsed : ℤ
  baseFeeGwei : ℚ
  tipGwei : ℚ
  blobBaseFeeGwei : Option ℚ
deriving DecidableEq

/-- The computed part of the `result` dictionary assembled by
blob_packing_planner.py lines 232-271 (chain metadata passes through
unchanged and is omitted). -/
structure PlannerResult where
  executionCostEth : ℚ
  blobCostEth : Option ℚ
  calldataCostEth : ℚ
  blobCount : ℕ
  bins : List (List ℕ)
  notes : List String
deriving DecidableEq

/-- The result built on the non-error path of `main`,
blob_packing_planner.py lines 196-271: `gas_used = max(0, gas_used)`
(line 175), pack into blobs of `BLOB_SIZE_BYTES` (line 215),
costs (lines 222-230), and the missing-blob-fee note (lines 270-271). -/
def plannerResultOf (inp : PlannerInputs) : PlannerResult :=
  { executionCostEth := exec_cost_eth inp.baseFeeGwei inp.tipGwei inp.gasUsed.toNat
    blobCostEth :=
      blob_cost_eth inp.blobBaseFeeGwei
        (first_fit_decreasing_binpack inp.sizes BLOB_SIZE_BYTES).length
    calldataCostEth := calldata_cost_eth inp.baseFeeGwei inp.tipGwei inp.sizes.sum
    blobCount := (first_fit_decreasing_binpack inp.sizes BLOB_SIZE_BYTES).length
    bins := first_fit_decreasing_binpack inp.sizes BLOB_SIZE_BYTES
    notes :=
      if inp.blobBaseFeeGwei = none ∧
          0 < (first_fit_decreasing_binpack inp.sizes BLOB_SIZE_BYTES).length then
        [blobFeeMissingNote]
      else [] }

/-- `main` of blob_packing_planner.py as a function of its core inputs:
the oversize check at lines 193-194 (`any(s > BLOB_SIZE_BYTES for s in
sizes)`) raises before packing starts; otherwise the result record is
assembled. -/
def plannerMain (inp : PlannerInputs) : Except String PlannerResult :=
  if ∃ s ∈ inp.sizes, BLOB_SIZE_BYTES < s then Except.error oversizeError
  else Except.ok (plannerResultOf inp)

/-- Inputs of `main` in eip4844_blob_cost.py that reach the core
computation. -/
structure BlobCostInputs where
  gasUsed : ℤ
  tipGwei : ℚ
  baseFeeGwei : ℚ
  blobs : ℤ
  blobBaseFeeGwei : Option ℚ
  calldataBytes : ℤ
deriving DecidableEq

/-- The computed part of the `out` dictionary of eip4844_blob_cost.py,
lines 150-188. -/
structure BlobCostResult where
  executionCostEth : ℚ
  blobCostEth : Option ℚ
  calldataCostEth : Option ℚ
  notes : List String
deriving DecidableEq

/-- `(calldata_bytes + BLOB_SIZE_BYTES - 1) // BLOB_SIZE_BYTES`,
eip4844_blob_cost.py line 178. -/
def impliedBlobs (calldataBytes : ℕ) : ℕ :=
  (calldataBytes + BLOB_SIZE_BYTES - 1) / BLOB_SIZE_BYTES

/-- The calldata-equivalence note of eip4844_blob_cost.py lines 177-186
(one of two texts, depending on whether blobs were requested). -/
def calldataEquivNote (blobs : ℤ) (calldataBytes : ℕ) : String :=
  if 0 < blobs then
    "One blob = " ++ toString BLOB_SIZE_BYTES ++ " bytes; your calldata size equals ~" ++
      toString (impliedBlobs calldataBytes) ++ " blob(s)."
  else
    "Your calldata size equals ~" ++ toString (impliedBlobs calldataBytes) ++
      " blob(s) at " ++ toString BLOB_SIZE_BYTES ++ " bytes per blob."

/-- The zero-tip note of eip4844_blob_cost.py line 188. -/
def zeroTipNote : String :=
  "Zero tip may slow confirmation in congestion."

/-- The fatal message of eip4844_blob_cost.py line 190 (the source
interpolates the offending tip value). -/
def tipNegativeError (t : ℚ) : String :=
  "--tip-gwei must be >= 0 (got " ++ toString t ++ ")"

/-- The `out` record assembled by `main` of eip4844_blob_cost.py:
`gas_used = max(0, gas_used)` and `calldata_bytes = max(0,
calldata_bytes)` (lines 108-109), execution cost (lines 131-134), blob
cost guarded by `blobs > 0 and blob_base_fee_gwei is not None` (lines
141-143; for `blobs ≤ 0` the count clamps to `0` and the shared
`blob_cost_eth` yields `none`, matching the guard), calldata cost
guarded by `calldata_bytes > 0` (lines 145-148), and the notes appended
at lines 175-188 in source order. -/
def blobCostResultOf (inp : BlobCostInputs) : BlobCostResult :=
  { executionCostEth := exec_cost_eth inp.baseFeeGwei inp.tipGwei inp.gasUsed.toNat
    blobCostEth := blob_cost_eth inp.blobBaseFeeGwei inp.blobs.toNat
    calldataCostEth :=
      if 0 < inp.calldataBytes.toNat then
        some (calldata_cost_eth inp.baseFeeGwei inp.tipGwei inp.calldataBytes.toNat)
      else none
    notes :=
      (if 0 < inp.blobs ∧ inp.blobBaseFeeGwei = none then [blobFeeMissingNote] else []) ++
      (if 0 < inp.calldataBytes.toNat then [calldataEquivNote inp.blobs inp.calldataBytes.toNat]
       else []) ++
      (if inp.tipGwei = 0 then [zeroTipNote] else []) }

/-- `main` of eip4844_blob_cost.py as a function of its core inputs.
The negative-tip check (lines 189-191) appears in the source after `out`
is assembled but before anything is emitted; a negative tip therefore
aborts the run with the error and no result, which is what this function
returns in that case. -/
def eip4844Main (inp : BlobCostInputs) : Except String BlobCostResult :=
  if inp.tipGwei < 0 then Except.error (tipNegativeError inp.tipGwei)
  else Except.ok (blobCostResultOf inp)

/-! ### Helper lemmas about the packing engine -/

/-- Every indexed read of a bounded size list is bounded (out-of-range
reads default to `0 ≤ cap`). -/
theorem getD_le_of_forall_le (sizes : List ℕ) (cap : ℕ)
    (h : ∀ s ∈ sizes, s ≤ cap) (i : ℕ) : sizes.getD i 0 ≤ cap := by
  induction sizes generalizing i with
  | nil => simp [List.getD]
  | cons a l ih =>
    cases i with
    | zero => simpa using h a (by simp)
    | succ n => simpa using ih (fun s hs => h s (by simp [hs])) n

/-- The loop invariant of `first_fit_decreasing_binpack`: each tracked
remainder is exactly the capacity minus the bytes already placed in its
bin, and never negative. -/
def BinInv (sizes : List ℕ) (cap : ℕ) (p : List ℕ × ℤ) : Prop :=
  p.2 = (cap : ℤ) - (binSum sizes p.1 : ℕ) ∧ 0 ≤ p.2

theorem placeOne_inv (sizes : List ℕ) (cap i : ℕ) (hi : sizes.getD i 0 ≤ cap)
    (st : List (List ℕ × ℤ)) (h : ∀ p ∈ st, BinInv sizes cap p) :
    ∀ p ∈ placeOne sizes cap i st, BinInv sizes cap p := by
  induction st with
  | nil =>
    intro p hp
    simp only [placeOne, List.mem_singleton] at hp
    subst hp
    refine ⟨by simp [binSum], ?_⟩
    simp only [binSum, List.map_cons, List.map_nil, List.sum_cons, List.sum_nil]
    omega
  | cons q rest ih =>
    obtain ⟨b, rem⟩ := q
    have hq : BinInv sizes cap (b, rem) := h _ (by simp)
    have hrest : ∀ p ∈ rest, BinInv sizes cap p := fun p hp => h p (by simp [hp])
    intro p hp
    by_cases hfit : (sizes.getD i 0 : ℤ) ≤ rem
    · simp only [placeOne, if_pos hfit, List.mem_cons] at hp
      rcases hp with hp | hp
      · subst hp
        obtain ⟨hrem, hnn⟩ := hq
        constructor
        · simp only [binSum, List.map_append, List.sum_append, List.map_cons,
            List.map_nil, List.sum_cons, List.sum_nil] at hrem ⊢
          push_cast at hrem ⊢
          omega
        · simpa using sub_nonneg.mpr hfit
      · exact hrest p hp
    · simp only [placeOne, if_neg hfit, List.mem_cons] at hp
      rcases hp with hp | hp
      · subst hp; exact hq
      · exact ih hrest p hp

theorem foldl_placeOne_inv (sizes : List ℕ) (cap : ℕ)
    (hall : ∀ i, sizes.getD i 0 ≤ cap) :
    ∀ (l : List ℕ) (st : List (List ℕ × ℤ)), (∀ p ∈ st, BinInv sizes cap p) →
      ∀ p ∈ l.foldl (fun st i => placeOne sizes cap i st) st, BinInv sizes cap p := by
  intro l
  induction l with
  | nil => intro st h; exact h
  | cons i l ih =>
    intro st h
    exact ih _ (placeOne_inv sizes cap i (hall i) st h)

/-- Placing one index prepends exactly that index to the multiset of all
placed members. -/
theorem placeOne_members (sizes : List ℕ) (cap i : ℕ) (st : List (List ℕ × ℤ)) :
    ((placeOne sizes cap i st).map Prod.fst).flatten.Perm
      (i :: (st.map Prod.fst).flatten) := by
  induction st with
  | nil => simp [placeOne]
  | cons q rest ih =>
    obtain ⟨b, rem⟩ := q
    by_cases hfit : (sizes.getD i 0 : ℤ) ≤ rem
    · simp only [placeOne, if_pos hfit, List.map_cons, List.flatten_cons]
      rw [List.append_assoc]
      exact List.perm_middle
    · simp only [placeOne, if_neg hfit, List.map_cons, List.flatten_cons]
      exact (ih.append_left b).trans List.perm_middle

theorem foldl_placeOne_members (sizes : List ℕ) (cap : ℕ) :
    ∀ (l : List ℕ) (st : List (List ℕ × ℤ)),
      (((l.foldl (fun st i => placeOne sizes cap i st) st).map Prod.fst).flatten).Perm
        (l ++ (st.map Prod.fst).flatten) := by
  intro l
  induction l with
  | nil => intro st; simp
  | cons i l ih =>
    intro st
    have h1 := ih (placeOne sizes cap i st)
    have h2 := (placeOne_members sizes cap i st).append_left l
    have h3 : (l ++ i :: (st.map Prod.fst).flatten).Perm
        (i :: (l ++ (st.map Prod.fst).flatten)) := List.perm_middle
    exact ((h1.trans h2).trans h3)

/-- A placement step never produces an empty bin list. -/
theorem placeOne_ne_nil (sizes : List ℕ) (cap i : ℕ) (st : List (List ℕ × ℤ)) :
    placeOne sizes cap i st ≠ [] := by
  cases st with
  | nil => simp [placeOne]
  | cons q rest =>
    obtain ⟨b, rem⟩ := q
    unfold placeOne
    split <;> simp

theorem foldl_placeOne_ne_nil (sizes : List ℕ) (cap : ℕ) :
    ∀ (l : List ℕ) (st : List (List ℕ × ℤ)), st ≠ [] →
      l.foldl (fun st i => placeOne sizes cap i st) st ≠ [] := by
  intro l
  induction l with
  | nil => intro st h; exact h
  | cons i l ih => intro st _; exact ih _ (placeOne_ne_nil sizes cap i st)

/-- A nonempty size list always yields at least one bin. -/
theorem binpack_ne_nil (sizes : List ℕ) (cap : ℕ) (h : sizes ≠ []) :
    first_fit_decreasing_binpack sizes cap ≠ [] := by
  unfold first_fit_decreasing_binpack
  have hlen : (sortIndicesDesc sizes).length = sizes.length := by
    unfold sortIndicesDesc
    exact (List.perm_insertionSort (ffdLe sizes)
      (List.range sizes.length)).length_eq.trans (List.length_range _)
  cases hc : sortIndicesDesc sizes with
  | nil =>
    rw [hc] at hlen
    exact absurd (List.eq_nil_of_length_eq_zero hlen.symm) h
  | cons i l =>
    have h1 : List.foldl (fun st i => placeOne sizes cap i st) [] (i :: l) ≠ [] := by
      simp only [List.foldl_cons]
      exact foldl_placeOne_ne_nil sizes cap l _ (placeOne_ne_nil sizes cap i [])
    intro hmap
    exact h1 (by simpa using hmap)

/-- Every bin the packing loop ever holds is nonempty. -/
theorem placeOne_bins_ne_nil (sizes : List ℕ) (cap i : ℕ)
    (st : List (List ℕ × ℤ)) (h : ∀ p ∈ st, p.1 ≠ []) :
    ∀ p ∈ placeOne sizes cap i st, p.1 ≠ [] := by
  induction st with
  | nil =>
    intro p hp
    simp only [placeOne, List.mem_singleton] at hp
    subst hp; simp
  | cons q rest ih =>
    obtain ⟨b, rem⟩ := q
    have hrest : ∀ p ∈ rest, p.1 ≠ [] := fun p hp => h p (by simp [hp])
    intro p hp
    by_cases hfit : (sizes.getD i 0 : ℤ) ≤ rem
    · simp only [placeOne, if_pos hfit, List.mem_cons] at hp
      rcases hp with hp | hp
      · subst hp; simp
      · exact hrest p hp
    · simp only [placeOne, if_neg hfit, List.mem_cons] at hp
      rcases hp with hp | hp
      · subst hp; exact h _ (by simp)
      · exact ih hrest p hp

theorem foldl_placeOne_bins_ne_nil (sizes : List ℕ) (cap : ℕ) :
    ∀ (l : List ℕ) (st : List (List ℕ × ℤ)), (∀ p ∈ st, p.1 ≠ []) →
      ∀ p ∈ l.foldl (fun st i => placeOne sizes cap i st) st, p.1 ≠ [] := by
  intro l
  induction l with
  | nil => intro st h; exact h
  | cons i l ih =>
    intro st h
    exact ih _ (placeOne_bins_ne_nil sizes cap i st h)

/-! ### Claim theorems -/

/-- C1: `pack` sorts indices by size descending with ties broken by
original input index ascending (the traversal order is a permutation of
the input indices, sorted by the stable descending comparison `ffdLe`),
and places each index by first fit in creation order, as realised by
`placeOne`; in particular for sizes `[50000, 50000, 50000]` and capacity
`131072` it returns exactly two bins, `[0, 1]` and `[2]`. -/
theorem C1_pack_order (sizes : List ℕ) :
    List.Sorted (ffdLe sizes) (sortIndicesDesc sizes) ∧
    (sortIndicesDesc sizes).Perm (List.range sizes.length) ∧
    first_fit_decreasing_binpack [50000, 50000, 50000] 131072 = [[0, 1], [2]] :=
  ⟨List.sorted_insertionSort (ffdLe sizes) (List.range sizes.length),
   List.perm_insertionSort (ffdLe sizes) (List.range sizes.length),
   by decide⟩

/-- C2: if every size is at most the capacity, every bin produced by
`first_fit_decreasing_binpack` holds member indices whose sizes sum to
at most the capacity. -/
theorem C2_capacity_invariant (sizes : List ℕ) (cap : ℕ)
    (h : ∀ s ∈ sizes, s ≤ cap) :
    ∀ b ∈ first_fit_decreasing_binpack sizes cap, binSum sizes b ≤ cap := by
  intro b hb
  unfold first_fit_decreasing_binpack at hb
  obtain ⟨⟨b', rem⟩, hmem, hfst⟩ := List.mem_map.mp hb
  have hinv :=
    foldl_placeOne_inv sizes cap (getD_le_of_forall_le sizes cap h)
      (sortIndicesDesc sizes) [] (by simp) _ hmem
  obtain ⟨hrem, hnn⟩ := hinv
  simp only at hfst
  subst hfst
  simp only [BinInv] at hrem hnn
  omega

/-- Witness for C2 at the tie-break example. -/
theorem C2_capacity_invariant_witness :
    binSum [50000, 50000, 50000] [0, 1] ≤ 131072 ∧
    binSum [50000, 50000, 50000] [2] ≤ 131072 :=
  ⟨C2_capacity_invariant [50000, 50000, 50000] 131072 (by decide) [0, 1] (by decide),
   C2_capacity_invariant [50000, 50000, 50000] 131072 (by decide) [2] (by decide)⟩

/-- C3: if every size is at most the capacity, the multiset union of all
bins returned by `first_fit_decreasing_binpack` is exactly the index set
`{0, ..., n-1}`, each index once. -/
theorem C3_conservation (sizes : List ℕ) (cap : ℕ)
    (_h : ∀ s ∈ sizes, s ≤ cap) :
    ((first_fit_decreasing_binpack sizes cap).flatten : Multiset ℕ) =
      ((List.range sizes.length : List ℕ) : Multiset ℕ) := by
  apply Multiset.coe_eq_coe.mpr
  unfold first_fit_decreasing_binpack
  have h1 := foldl_placeOne_members sizes cap (sortIndicesDesc sizes) []
  have h2 : (sortIndicesDesc sizes).Perm (List.range sizes.length) :=
    List.perm_insertionSort (ffdLe sizes) (List.range sizes.length)
  simp only [List.map_nil, List.flatten_nil, List.append_nil] at h1
  exact h1.trans h2

/-- Witness for C3 at the tie-break example. -/
theorem C3_conservation_witness :
    ((first_fit_decreasing_binpack [50000, 50000, 50000] 131072).flatten : Multiset ℕ) =
      ((List.range 3 : List ℕ) : Multiset ℕ) :=
  C3_conservation [50000, 50000, 50000] 131072 (by decide)

/-- C10: if every size is at most the capacity, every bin returned by
`first_fit_decreasing_binpack` carries at least one member index: the
packing never returns an empty bin, so the blob count counts only blobs
holding a payload. -/
theorem C10_bins_nonempty (sizes : List ℕ) (cap : ℕ)
    (_h : ∀ s ∈ sizes, s ≤ cap) :
    ∀ b ∈ first_fit_decreasing_binpack sizes cap, b ≠ [] := by
  intro b hb
  unfold first_fit_decreasing_binpack at hb
  obtain ⟨⟨b', rem⟩, hmem, hfst⟩ := List.mem_map.mp hb
  have hne :=
    foldl_placeOne_bins_ne_nil sizes cap (sortIndicesDesc sizes) [] (by simp) _ hmem
  simp only at hfst
  subst hfst
  exact hne

/-- Witness for C10 at the tie-break example. -/
theorem C10_bins_nonempty_witness : ([0, 1] : List ℕ) ≠ [] :=
  C10_bins_nonempty [50000, 50000, 50000] 131072 (by decide) [0, 1] (by decide)

/-- C4: `blobCostEth` is defined exactly when the blob base fee is
present and the blob count is positive, and in that case it equals
`blobBaseFeeGwei * blobCount * DATA_GAS_PER_BLOB * 1e-9` ETH (the flat
per-blob blob-gas constant is applied, so a half-empty blob costs the
same as a full one). -/
theorem C4_blob_cost_defined (o : Option ℚ) (c : ℕ) (f : ℚ) :
    ((blob_cost_eth o c).isSome ↔ o.isSome ∧ 0 < c) ∧
    (0 < c →
      blob_cost_eth (some f) c =
        some (f * (c : ℚ) * (DATA_GAS_PER_BLOB : ℚ) / 10 ^ 9)) := by
  constructor
  · cases o with
    | none => simp [blob_cost_eth]
    | some g =>
      by_cases hc : 0 < c <;> simp [blob_cost_eth, hc]
  · intro hc
    simp [blob_cost_eth, hc]

/-- Witness for C4: two blobs at fee 3 Gwei. -/
theorem C4_blob_cost_defined_witness :
    blob_cost_eth (some 3) 2 = some (3 * (2 : ℚ) * (DATA_GAS_PER_BLOB : ℚ) / 10 ^ 9) :=
  (C4_blob_cost_defined (some 3) 2 3).2 (by decide)

/-- C5: when the blob base fee is absent and the input is a valid
nonempty size list (so at least one blob is used), the planner does not
abort: the result is produced with `blobCostEth = none`, the
missing-blob-fee advisory is in the notes, and the execution and
calldata costs are still computed by the usual formulas. -/
theorem C5_missing_blob_fee (inp : PlannerInputs)
    (hfee : inp.blobBaseFeeGwei = none)
    (hsz : ∀ s ∈ inp.sizes, s ≤ BLOB_SIZE_BYTES)
    (hne : inp.sizes ≠ []) :
    plannerMain inp = Except.ok (plannerResultOf inp) ∧
    (plannerResultOf inp).blobCostEth = none ∧
    blobFeeMissingNote ∈ (plannerResultOf inp).notes ∧
    (plannerResultOf inp).executionCostEth =
      exec_cost_eth inp.baseFeeGwei inp.tipGwei inp.gasUsed.toNat ∧
    (plannerResultOf inp).calldataCostEth =
      calldata_cost_eth inp.baseFeeGwei inp.tipGwei inp.sizes.sum := by
  have hpos : 0 < (first_fit_decreasing_binpack inp.sizes BLOB_SIZE_BYTES).length :=
    List.length_pos.mpr (binpack_ne_nil inp.sizes BLOB_SIZE_BYTES hne)
  refine ⟨?_, ?_, ?_, rfl, rfl⟩
  · unfold plannerMain
    rw [if_neg]
    rintro ⟨s, hs, hlt⟩
    exact absurd hlt (not_lt.mpr (hsz s hs))
  · simp [plannerResultOf, hfee, blob_cost_eth]
  · simp only [plannerResultOf]
    rw [if_pos ⟨hfee, hpos⟩]
    simp

/-- Witness for C5: sizes `[70000]`, no blob base fee. -/
def inp70 : PlannerInputs :=
  { sizes := [70000], gasUsed := 0, baseFeeGwei := 30, tipGwei := 2,
    blobBaseFeeGwei := none }

theorem C5_missing_blob_fee_witness :
    plannerMain inp70 = Except.ok (plannerResultOf inp70) ∧
    (plannerResultOf inp70).blobCostEth = none ∧
    blobFeeMissingNote ∈ (plannerResultOf inp70).notes ∧
    (plannerResultOf inp70).executionCostEth = exec_cost_eth 30 2 0 ∧
    (plannerResultOf inp70).calldataCostEth = calldata_cost_eth 30 2 70000 :=
  C5_missing_blob_fee inp70 rfl (by decide) (by decide)

/-- Counterexample input for C6: the only payload (index 0) is one byte
over capacity. -/
def inpOversizeA : PlannerInputs :=
  { sizes := [131073], gasUsed := 0, baseFeeGwei := 1, tipGwei := 1,
    blobBaseFeeGwei := none }

/-- Counterexample input for C6: the offending payload sits at index 1. -/
def inpOversizeB : PlannerInputs :=
  { sizes := [5, 131073], gasUsed := 0, baseFeeGwei := 1, tipGwei := 1,
    blobBaseFeeGwei := none }

/-- C6 counterexample: the oversize failure does happen before packing,
but the error does not identify the offending payload index or size:
the planner reports the one fixed message for every failing input, here
for an offending payload at index 0 and for one at index 1 (the message
names only the capacity constant). -/
theorem C6_counterexample :
    plannerMain inpOversizeA = Except.error oversizeError ∧
    plannerMain inpOversizeB = Except.error oversizeError ∧
    inpOversizeA.sizes = [131073] ∧
    inpOversizeB.sizes = [5, 131073] ∧
    oversizeError =
      "Payload exceeds blob capacity (131072 bytes); split payloads before packing." :=
  ⟨by rfl, by rfl, rfl, rfl, rfl⟩

/-- C6 as amended: an input containing a size strictly greater than the
capacity fails before any bin is opened, with the fixed
capacity-exceeded error (which names the capacity but not the offending
index or size); no packing result is produced. -/
theorem C6_oversize_rejected (inp : PlannerInputs)
    (h : ∃ s ∈ inp.sizes, BLOB_SIZE_BYTES < s) :
    plannerMain inp = Except.error oversizeError := by
  unfold plannerMain
  rw [if_pos h]

/-- Witness for the amended C6 at size `131073`. -/
theorem C6_oversize_rejected_witness :
    plannerMain inpOversizeA = Except.error oversizeError :=
  C6_oversize_rejected inpOversizeA (by decide)

/-- Counterexample input for C7: a negative tip fed to the planner. -/
def inpNegTip : PlannerInputs :=
  { sizes := [70000], gasUsed := 1000, baseFeeGwei := 10, tipGwei := -1,
    blobBaseFeeGwei := some 1 }

/-- C7 counterexample: blob_packing_planner.py never validates the tip.
With tip `-1` Gwei the computation is not rejected: a full result is
produced, and the negative tip enters the effective-price formula (the
execution cost is the one computed with effective price `10 - 1 = 9`,
not the tip-clamped value). -/
theorem C7_counterexample :
    inpNegTip.tipGwei < 0 ∧
    plannerMain inpNegTip = Except.ok (plannerResultOf inpNegTip) ∧
    (plannerResultOf inpNegTip).executionCostEth = 9 / 10 ^ 6 ∧
    (plannerResultOf inpNegTip).executionCostEth ≠ exec_cost_eth 10 0 1000 := by
  refine ⟨by norm_num [inpNegTip], by rfl, ?_, ?_⟩
  · show exec_cost_eth 10 (-1) ((1000 : ℤ).toNat) = 9 / 10 ^ 6
    have h : (1000 : ℤ).toNat = 1000 := rfl
    rw [h]
    norm_num [exec_cost_eth]
  · show exec_cost_eth 10 (-1) ((1000 : ℤ).toNat) ≠ exec_cost_eth 10 0 1000
    have h : (1000 : ℤ).toNat = 1000 := rfl
    rw [h]
    norm_num [exec_cost_eth]

/-- C7 as amended: in eip4844_blob_cost.py a negative tip aborts the run
with the tip-must-be-nonnegative error and no result is emitted (the
source performs the check after computing the costs internally but
before producing any output); in blob_packing_planner.py the tip is not
validated at all, and a negative tip flows into the effective price and
the produced result (see the counterexample). -/
theorem C7_negative_tip_rejected (inp : BlobCostInputs)
    (h : inp.tipGwei < 0) :
    eip4844Main inp = Except.error (tipNegativeError inp.tipGwei) := by
  unfold eip4844Main
  rw [if_pos h]

/-- Witness for the amended C7 at tip `-2` Gwei. -/
def inpNegTip4844 : BlobCostInputs :=
  { gasUsed := 100, tipGwei := -2, baseFeeGwei := 10, blobs := 1,
    blobBaseFeeGwei := some 1, calldataBytes := 0 }

theorem C7_negative_tip_rejected_witness :
    eip4844Main inpNegTip4844 = Except.error (tipNegativeError (-2)) :=
  C7_negative_tip_rejected inpNegTip4844 (by norm_num [inpNegTip4844])

/-- C8: a negative `gasUsed` is clamped to 0 rather than rejected, in
both scripts: the computation proceeds, the result is produced, and the
execution cost equals the one computed with `gasUsed = 0`. -/
theorem C8_negative_gas_clamped (inp : PlannerInputs) (inp2 : BlobCostInputs)
    (hg : inp.gasUsed < 0)
    (hsz : ∀ s ∈ inp.sizes, s ≤ BLOB_SIZE_BYTES)
    (hg2 : inp2.gasUsed < 0)
    (ht : 0 ≤ inp2.tipGwei) :
    plannerMain inp = Except.ok (plannerResultOf inp) ∧
    (plannerResultOf inp).executionCostEth =
      exec_cost_eth inp.baseFeeGwei inp.tipGwei 0 ∧
    eip4844Main inp2 = Except.ok (blobCostResultOf inp2) ∧
    (blobCostResultOf inp2).executionCostEth =
      exec_cost_eth inp2.baseFeeGwei inp2.tipGwei 0 := by
  refine ⟨?_, ?_, ?_, ?_⟩
  · unfold plannerMain
    rw [if_neg]
    rintro ⟨s, hs, hlt⟩
    exact absurd hlt (not_lt.mpr (hsz s hs))
  · show exec_cost_eth inp.baseFeeGwei inp.tipGwei inp.gasUsed.toNat =
      exec_cost_eth inp.baseFeeGwei inp.tipGwei 0
    rw [Int.toNat_of_nonpos hg.le]
  · unfold eip4844Main
    rw [if_neg (not_lt.mpr ht)]
  · show exec_cost_eth inp2.baseFeeGwei inp2.tipGwei inp2.gasUsed.toNat =
      exec_cost_eth inp2.baseFeeGwei inp2.tipGwei 0
    rw [Int.toNat_of_nonpos hg2.le]

/-- Witness inputs for C8 with `gasUsed = -7`. -/
def inpNegGasPlanner : PlannerInputs :=
  { sizes := [1000], gasUsed := -7, baseFeeGwei := 5, tipGwei := 1,
    blobBaseFeeGwei := some 1 }

def inpNegGas4844 : BlobCostInputs :=
  { gasUsed := -7, tipGwei := 1, baseFeeGwei := 5, blobs := 1,
    blobBaseFeeGwei := some 1, calldataBytes := 0 }

theorem C8_negative_gas_clamped_witness :
    plannerMain inpNegGasPlanner = Except.ok (plannerResultOf inpNegGasPlanner) ∧
    (plannerResultOf inpNegGasPlanner).executionCostEth = exec_cost_eth 5 1 0 ∧
    eip4844Main inpNegGas4844 = Except.ok (blobCostResultOf inpNegGas4844) ∧
    (blobCostResultOf inpNegGas4844).executionCostEth = exec_cost_eth 5 1 0 :=
  C8_negative_gas_clamped inpNegGasPlanner inpNegGas4844
    (by decide) (by decide) (by decide) (by norm_num [inpNegGas4844])

/-- C9 counterexample: with a zero fee snapshot (base fee 0, tip 0 —
both allowed, they only have to be nonnegative) the execution cost is 0
for every `gasUsed`, so increasing `gasUsed` from 1 to 2 does not
strictly increase it; likewise a present-but-zero blob base fee makes
the blob cost constant in the blob count. -/
theorem C9_counterexample :
    exec_cost_eth 0 0 1 = exec_cost_eth 0 0 2 ∧
    (1 : ℕ) < 2 ∧
    blob_cost_eth (some 0) 1 = blob_cost_eth (some 0) 2 := by
  refine ⟨by norm_num [exec_cost_eth], by norm_num, ?_⟩
  norm_num [blob_cost_eth]

/-- C9 as amended: strictly increasing `gasUsed` strictly increases the
execution cost provided the effective price `baseFee + tip` is positive,
and strictly increasing the blob count strictly increases the blob cost
provided the blob base fee is positive; with a zero effective price or a
zero blob base fee the respective cost is constant. -/
theorem C9_cost_monotonicity (base tip f : ℚ) (g g' c c' : ℕ)
    (heff : 0 < base + tip) (hg : g < g') (hf : 0 < f)
    (hc : 0 < c) (hcc' : c < c') :
    exec_cost_eth base tip g < exec_cost_eth base tip g' ∧
    blob_cost_eth (some f) c =
      some (f * (c : ℚ) * (DATA_GAS_PER_BLOB : ℚ) / 10 ^ 9) ∧
    blob_cost_eth (some f) c' =
      some (f * (c' : ℚ) * (DATA_GAS_PER_BLOB : ℚ) / 10 ^ 9) ∧
    f * (c : ℚ) * (DATA_GAS_PER_BLOB : ℚ) / 10 ^ 9 <
      f * (c' : ℚ) * (DATA_GAS_PER_BLOB : ℚ) / 10 ^ 9 := by
  have hD : (0 : ℚ) < (DATA_GAS_PER_BLOB : ℚ) := by
    norm_num [DATA_GAS_PER_BLOB]
  refine ⟨?_, by simp [blob_cost_eth, hc], by simp [blob_cost_eth, hc.trans hcc'], ?_⟩
  · unfold exec_cost_eth
    have hgq : (g : ℚ) < (g' : ℚ) := by exact_mod_cast hg
    have h1 : (base + tip) * (g : ℚ) < (base + tip) * (g' : ℚ) :=
      mul_lt_mul_of_pos_left hgq heff
    exact div_lt_div_of_pos_right h1 (by norm_num)
  · have hcq : (c : ℚ) < (c' : ℚ) := by exact_mod_cast hcc'
    have hpos : (0 : ℚ) < f * (DATA_GAS_PER_BLOB : ℚ) / 10 ^ 9 := by positivity
    calc f * (c : ℚ) * (DATA_GAS_PER_BLOB : ℚ) / 10 ^ 9
        = (f * (DATA_GAS_PER_BLOB : ℚ) / 10 ^ 9) * (c : ℚ) := by ring
      _ < (f * (DATA_GAS_PER_BLOB : ℚ) / 10 ^ 9) * (c' : ℚ) :=
        mul_lt_mul_of_pos_left hcq hpos
      _ = f * (c' : ℚ) * (DATA_GAS_PER_BLOB : ℚ) / 10 ^ 9 := by ring

/-- Witness for the amended C9 at effective price 1, fee 1, counts 1 and 2. -/
theorem C9_cost_monotonicity_witness :
    exec_cost_eth 1 0 1 < exec_cost_eth 1 0 2 ∧
    blob_cost_eth (some 1) 1 =
      some (1 * (1 : ℚ) * (DATA_GAS_PER_BLOB : ℚ) / 10 ^ 9) ∧
    blob_cost_eth (some 1) 2 =
      some (1 * (2 : ℚ) * (DATA_GAS_PER_BLOB : ℚ) / 10 ^ 9) ∧
    1 * (1 : ℚ) * (DATA_GAS_PER_BLOB : ℚ) / 10 ^ 9 <
      1 * (2 : ℚ) * (DATA_GAS_PER_BLOB : ℚ) / 10 ^ 9 :=
  C9_cost_monotonicity 1 0 1 1 2 1 2 (by norm_num) (by norm_num)
    (by norm_num) (by norm_num) (by norm_num)
